import Mathlib

/-!
Verification of the search-engine core of the `searchTool` repository.

The development shallowly embeds the data model and the operations of
`src/search_index.rs` (the in-memory search index), the query parser and
filter matcher of `src/search_syntax.rs` / `src/commands.rs`, the USN
change-record classifier of `src/lib.rs` (`get_changes_since`), and the
directory-cache loader of `src/lib.rs` (`load_dir_cache`).

Modelling conventions:
* Rust `u64` / `u32` / `usize` values are `Nat` (none of the verified
  operations can overflow or rely on wrap-around).
* `f64` timestamps are modelled as `ℚ` (only compared with `≤`).
* Rust `FxHashMap<u64, usize>` is modelled as an association list with
  first-match lookup; insertion conses a binding (shadowing any older one)
  and removal drops every binding of the key, which is observationally
  equivalent to the hash-map operations used by the source.
* `String` stays `String`; Unicode case folding is modelled per `Char`
  (all inputs of interest are ASCII).
* File I/O and serialization are abstracted away: a persisted index blob
  is the serialized item vector with the `#[serde(skip)]` field
  `name_lower` erased, and a persisted directory cache is the decoded
  `PersistDirCacheV1` record.
-/

/-- `IndexedItem` of `search_index.rs`. -/
structure IndexedItem where
  name : String
  name_lower : String
  path : String
  file_ref : Nat
  parent_ref : Nat
  size : Nat
  is_dir : Bool
  mtime : ℚ
deriving DecidableEq, Repr, Inhabited

/-- `SearchResult` of `commands.rs`. -/
structure SearchResult where
  filename : String
  fullpath : String
  size : Nat
  mtime : Nat
  is_dir : Bool
deriving DecidableEq, Repr

/-- `SearchFilters` of `search_syntax.rs`. -/
structure SearchFilters where
  ext : List String
  size_min : Nat
  size_max : Nat
  date_after : Option Nat
  path : String
  name_pattern : String
deriving DecidableEq, Repr

/-- `SearchFilters::default()`. -/
def emptyFilters : SearchFilters :=
  { ext := [], size_min := 0, size_max := 0, date_after := none,
    path := "", name_pattern := "" }

/-- `str::to_lowercase` (per-char model; ASCII-faithful). -/
def strLower (s : String) : String := String.mk (s.toList.map Char.toLower)

/-- An item slot is live iff its name is nonempty (tombstones have the
name cleared by `remove_file` / `remove_file_by_path`). -/
def ItemLive (it : IndexedItem) : Prop := it.name ≠ ""

instance (it : IndexedItem) : Decidable (ItemLive it) := by
  unfold ItemLive; infer_instance

/-- Boolean form of `ItemLive`, as used by the query filters
(`!item.name.is_empty()`). -/
def liveB (it : IndexedItem) : Bool := decide (it.name ≠ "")

/-- First-match lookup in the association-list model of
`FxHashMap<u64, usize>`. -/
def refLookup (r : Nat) : List (Nat × Nat) → Option Nat
  | [] => none
  | (k, v) :: t => if k = r then some v else refLookup r t

/-- `FxHashMap::remove`: drop every binding of the key. -/
def refRemove (r : Nat) : List (Nat × Nat) → List (Nat × Nat)
  | [] => []
  | (k, v) :: t => if k = r then refRemove r t else (k, v) :: refRemove r t

/-- Lookup in the association-list model of the extension index
`FxHashMap<String, Vec<usize>>`. -/
def extLookup (e : String) : List (String × List Nat) → Option (List Nat)
  | [] => none
  | (k, v) :: t => if k = e then some v else extLookup e t

/-- `ext_index.entry(ext).or_insert_with(Vec::new).push(idx)`. -/
def extInsert (e : String) (idx : Nat) : List (String × List Nat) → List (String × List Nat)
  | [] => [(e, [idx])]
  | (k, v) :: t => if k = e then (k, v ++ [idx]) :: t else (k, v) :: extInsert e idx t

/-- Position of the last occurrence of `c` (Rust `str::rfind`). -/
def rfindPos (c : Char) : List Char → Option Nat
  | [] => none
  | x :: t =>
    match rfindPos c t with
    | some p => some (p + 1)
    | none => if x = c then some 0 else none

/-- The extension key computed by `SearchIndex::build`: the lowercased
text after the last `.`, or `none` when the name has no dot (such names
are not entered into the extension index at all). -/
def extKeyOf (name : String) : Option String :=
  match rfindPos '.' name.toList with
  | none => none
  | some p => some (String.mk (((name.toList).drop (p + 1)).map Char.toLower))

/-- `get_ext_lower` of `lib.rs`: the suffix from the last `.` inclusive,
ASCII-lowercased; `""` when there is no dot. -/
def getExtLower (name : String) : String :=
  match rfindPos '.' name.toList with
  | none => ""
  | some p => String.mk (((name.toList).drop p).map Char.toLower)

/-- `std::path::Path::extension()` applied to a bare file name, with
`unwrap_or("")`: empty when there is no dot or when the only dot is the
leading character of a dotfile, otherwise the text after the last dot. -/
def pathExt (name : String) : String :=
  match rfindPos '.' name.toList with
  | none => ""
  | some 0 => ""
  | some p => String.mk ((name.toList).drop (p + 1))

/-- Extension as computed inside `match_item` / `match_filters`:
`Path::extension().unwrap_or("").to_lowercase()`. -/
def pathExtLower (name : String) : String := strLower (pathExt name)

/-- `leadsB pat s`: `s` starts with `pat` (char-exact). -/
def leadsB : List Char → List Char → Bool
  | [], _ => true
  | _ :: _, [] => false
  | p :: ps, c :: cs => (p == c) && leadsB ps cs

/-- `hasSub pat hay`: `pat` occurs as a contiguous substring of `hay`
(Rust `str::contains`). -/
def hasSub (pat : List Char) : List Char → Bool
  | [] => leadsB pat []
  | c :: t => leadsB pat (c :: t) || hasSub pat t

/-- String form of `hasSub`. -/
def strContains (hay pat : String) : Bool := hasSub pat.toList hay.toList

example : strContains "my_test_file.txt" "test" = true := by decide
example : strContains "abc" "abd" = false := by decide
example : extKeyOf ".hidden" = some "hidden" := by decide
example : extKeyOf "foo." = some "" := by decide
example : extKeyOf "foo" = none := by decide
example : getExtLower ".hidden" = ".hidden" := by decide
example : getExtLower "A.TXT" = ".txt" := by decide
example : pathExt ".hidden" = "" := by decide
example : pathExt "foo.txt" = "txt" := by decide
example : pathExt "foo." = "" := by decide

/-- The mutable state of `SearchIndex` (the radix trie over lowercased
names is omitted: no settled claim depends on its contents). -/
structure IndexState where
  items : List IndexedItem
  refMap : List (Nat × Nat)
  extIndex : List (String × List Nat)
  dirty : Bool
deriving DecidableEq, Repr

/-- `SearchIndex::new()`. -/
def emptyIndex : IndexState :=
  { items := [], refMap := [], extIndex := [], dirty := false }

/-- Recompute `name_lower` from `name` (done by `build` and `add_file`). -/
def relower (it : IndexedItem) : IndexedItem :=
  { it with name_lower := strLower it.name }

/-- The `file_ref_map` built by the loop of `SearchIndex::build`:
`file_ref_map.insert(item.file_ref, idx)` for every slot, tombstoned or
not, in slot order (later inserts shadow earlier ones). -/
def buildRefMapAux (start : Nat) : List IndexedItem → List (Nat × Nat) → List (Nat × Nat)
  | [], m => m
  | it :: rest, m => buildRefMapAux (start + 1) rest ((it.file_ref, start) :: m)

/-- The extension index built by the loop of `SearchIndex::build`. -/
def buildExtAux (start : Nat) : List IndexedItem → List (String × List Nat) → List (String × List Nat)
  | [], m => m
  | it :: rest, m =>
    buildExtAux (start + 1) rest
      (match extKeyOf it.name with
       | some e => extInsert e start m
       | none => m)

/-- `SearchIndex::build`: replaces the whole state from a fresh item
vector, recomputing `name_lower` and rebuilding every auxiliary map. -/
def buildIndex (input : List IndexedItem) : IndexState :=
  { items := input.map relower,
    refMap := buildRefMapAux 0 input [],
    extIndex := buildExtAux 0 input [],
    dirty := true }

/-- `SearchIndex::add_file`: appends one item and updates the maps. -/
def addFile (it : IndexedItem) (s : IndexState) : IndexState :=
  let idx := s.items.length
  { items := s.items ++ [relower it],
    refMap := (it.file_ref, idx) :: s.refMap,
    extIndex :=
      match extKeyOf it.name with
      | some e => extInsert e idx s.extIndex
      | none => s.extIndex,
    dirty := true }

/-- Tombstoning of a slot: `remove_file` clears name, path and size. -/
def clearItem (it : IndexedItem) : IndexedItem :=
  { it with name := "", path := "", size := 0 }

/-- `SearchIndex::remove_file`: removes the reference from the map and
tombstones the slot; returns whether the reference was present. -/
def removeFile (r : Nat) (s : IndexState) : Bool × IndexState :=
  match refLookup r s.refMap with
  | some idx =>
    (true,
     { s with
       refMap := refRemove r s.refMap,
       items :=
         if idx < s.items.length then
           s.items.set idx (clearItem (s.items.getD idx default))
         else s.items,
       dirty := true })
  | none => (false, s)

/-- `path.replace('/', "\\").to_lowercase()`. -/
def normPath (p : String) : String :=
  strLower (String.mk (p.toList.map fun c => if c = '/' then '\\' else c))

/-- Index of the first item whose lowercased stored path equals the
normalized argument (the scan of `remove_file_by_path`). -/
def findPathIdx (p : String) : List IndexedItem → Option Nat
  | [] => none
  | it :: rest =>
    if strLower it.path = p then some 0
    else (findPathIdx p rest).map (· + 1)

/-- `SearchIndex::remove_file_by_path`. -/
def removeFileByPath (p : String) (s : IndexState) : Bool × IndexState :=
  match findPathIdx (normPath p) s.items with
  | some idx =>
    (true,
     { s with
       refMap := refRemove (s.items.getD idx default).file_ref s.refMap,
       items := s.items.set idx (clearItem (s.items.getD idx default)),
       dirty := true })
  | none => (false, s)

/-- `SearchIndex::search_contains`: parallel filter over the item vector
(live and lowercased-name-contains-pattern), truncated to `max_results`. -/
def searchContains (pat : String) (maxResults : Nat) (s : IndexState) : List IndexedItem :=
  ((s.items.filter fun it => liveB it && strContains it.name_lower (strLower pat)).take maxResults)

/-- `SearchIndex::search_by_extension`: direct lookup in the extension
index; note that the hits are not filtered for tombstones. -/
def searchByExtension (ext : String) (maxResults : Nat) (s : IndexState) : List IndexedItem :=
  match extLookup (strLower ext) s.extIndex with
  | some idxs => (idxs.take maxResults).filterMap fun i => s.items.get? i
  | none => []

/-- `SearchIndex::search_by_mtime_range`: linear scan collecting items in
the closed mtime range until `max_results`; no tombstone filter. -/
def searchByMtimeRange (lo hi : ℚ) (maxResults : Nat) (s : IndexState) : List IndexedItem :=
  ((s.items.filter fun it => decide (lo ≤ it.mtime) && decide (it.mtime ≤ hi)).take maxResults)

/-- `SearchIndex::item_count`: live slots only. -/
def itemCount (s : IndexState) : Nat := (s.items.filter liveB).length

/-- The byte blob written by `save_to_file`, modelled at the level of the
decoded item vector: every slot is serialized, with the `#[serde(skip)]`
field `name_lower` not stored (it deserializes to `""`). -/
def saveBlob (s : IndexState) : List IndexedItem :=
  s.items.map fun it => { it with name_lower := "" }

/-- `load_from_file` on a successfully deserialized blob: `build`. -/
def loadBlob (blob : List IndexedItem) : IndexState := buildIndex blob

example :
    (buildIndex [{ name := "Test.TXT", name_lower := "", path := "c:\\Test.TXT",
                   file_ref := 1, parent_ref := 0, size := 7, is_dir := false,
                   mtime := 0 }]).items.map IndexedItem.name_lower = ["test.txt"] := by
  decide

example :
    (removeFile 1 (buildIndex [{ name := "a", name_lower := "", path := "c:\\a",
                                 file_ref := 1, parent_ref := 0, size := 7,
                                 is_dir := false, mtime := 0 }])).fst = true := by
  decide

/-- Convenience constructor for concrete test items (the `name_lower`
argument is irrelevant: `build` and `add_file` recompute it). -/
def mkItem (n p : String) (r sz : Nat) (mt : ℚ) : IndexedItem :=
  { name := n, name_lower := "", path := p, file_ref := r, parent_ref := 0,
    size := sz, is_dir := false, mtime := mt }

/-- `USN_REASON_DATA_OVERWRITE` (`lib.rs`). -/
def uDataOverwrite : Nat := 0x00000001

/-- `USN_REASON_DATA_EXTEND` (`lib.rs`). -/
def uDataExtend : Nat := 0x00000002

/-- `USN_REASON_FILE_CREATE` (`lib.rs`). -/
def uFileCreate : Nat := 0x00000100

/-- `USN_REASON_FILE_DELETE` (`lib.rs`). -/
def uFileDelete : Nat := 0x00000200

/-- `USN_REASON_RENAME_OLD_NAME` (`lib.rs`). -/
def uRenameOld : Nat := 0x00001000

/-- `USN_REASON_RENAME_NEW_NAME` (`lib.rs`). -/
def uRenameNew : Nat := 0x00002000

/-- `USN_REASON_CLOSE` (`lib.rs`). -/
def uClose : Nat := 0x80000000

/-- The per-record action classification of `get_changes_since`
(`lib.rs`, the pre-filter at the reason check followed by the
`action` chain): `some 0` = remove, `some 1` = add, `some 2` =
update-metadata, `none` = record skipped. -/
def classify (reason : Nat) : Option Nat :=
  if ¬reason &&& uFileDelete ≠ 0 ∧ ¬reason &&& uRenameOld ≠ 0 ∧
     ¬reason &&& uRenameNew ≠ 0 ∧ reason &&& uClose = 0 then
    none
  else if reason &&& uFileDelete ≠ 0 ∨ reason &&& uRenameOld ≠ 0 then
    some 0
  else if reason &&& uRenameNew ≠ 0 ∨ reason &&& uFileCreate ≠ 0 then
    some 1
  else if reason &&& (uDataExtend ||| uDataOverwrite) ≠ 0 then
    some 2
  else
    none

example : classify (uFileDelete ||| uClose) = some 0 := by decide
example : classify (uFileCreate ||| uClose) = some 1 := by decide
example : classify uClose = none := by decide
example : classify (uDataExtend ||| uClose) = some 2 := by decide

/-- Decoded `PersistDirCacheV1` (`lib.rs`). -/
structure PersistDirCache where
  version : Nat
  drive : Nat
  journal_id : Nat
  paths : List (Nat × String)
deriving DecidableEq, Repr

/-- `load_dir_cache` (`lib.rs`), abstracted over file I/O and
deserialization (the blob is already decoded) and over the journal
query (`journalNow` is the volume's current journal identifier, `0`
when the query failed): returns `1` on success, `0` on rejection. -/
def loadDirCache (blob : PersistDirCache) (drive : Nat) (journalNow : Nat) : Nat :=
  if journalNow = 0 then 0
  else if blob.version ≠ 1 then 0
  else if blob.drive ≠ drive then 0
  else if blob.journal_id ≠ journalNow then 0
  else 1

/-- Spec invariant, first half: every live slot's file reference maps
back to exactly that slot. -/
def LiveMapped (s : IndexState) : Prop :=
  ∀ i : Fin s.items.length, ItemLive (s.items.get i) →
    refLookup (s.items.get i).file_ref s.refMap = some i.val

/-- Spec invariant, second half (restricted to live slots): a file
reference occurs in at most one live slot. -/
def RefUniqueLive (s : IndexState) : Prop :=
  ∀ i j : Fin s.items.length, ItemLive (s.items.get i) → ItemLive (s.items.get j) →
    (s.items.get i).file_ref = (s.items.get j).file_ref → i = j

/-- The invariant exactly as claimed for the index. -/
def ClaimInv (s : IndexState) : Prop := LiveMapped s ∧ RefUniqueLive s

/-- Every binding of the file-ref map addresses an in-range slot whose
item carries that reference (this also covers bindings shadowed in the
association-list model). -/
def MapEntriesValid (s : IndexState) : Prop :=
  ∀ p ∈ s.refMap, p.2 < s.items.length ∧ (s.items.getD p.2 default).file_ref = p.1

/-- Tombstoned slots have their path cleared (remove operations clear
it, and queries by path never see tombstones through it). -/
def TombClean (s : IndexState) : Prop :=
  ∀ i : Fin s.items.length, ¬ItemLive (s.items.get i) → (s.items.get i).path = ""

/-- Well-formedness of an index state. -/
def WF (s : IndexState) : Prop := LiveMapped s ∧ MapEntriesValid s ∧ TombClean s

/-- Pairwise-distinct file references in a build input. -/
def RefInj (input : List IndexedItem) : Prop :=
  ∀ i j : Fin input.length, (input.get i).file_ref = (input.get j).file_ref → i = j

/-- A build input is clean when only already-cleared slots (empty name)
carry an empty path. -/
def CleanInput (input : List IndexedItem) : Prop :=
  ∀ it ∈ input, it.name = "" → it.path = ""

/-- Index states reachable through the mutating API (`new`, `build`,
`add_file`, `remove_file`, `remove_file_by_path`; `load_from_file` is
`build` applied to the decoded blob). -/
inductive Reachable : IndexState → Prop where
  | new : Reachable emptyIndex
  | build (input : List IndexedItem) : Reachable (buildIndex input)
  | add (it : IndexedItem) (s : IndexState) : Reachable s → Reachable (addFile it s)
  | remove (r : Nat) (s : IndexState) : Reachable s → Reachable (removeFile r s).snd
  | removeByPath (p : String) (s : IndexState) :
      Reachable s → Reachable (removeFileByPath p s).snd

theorem getD_eq_of_lt {l : List α} {i : Nat} (h : i < l.length) (d : α) :
    l.getD i d = l[i] := by
  simp [List.getD_eq_getElem?_getD, List.getElem?_eq_getElem h]

theorem refLookup_mem {r v : Nat} : ∀ {m : List (Nat × Nat)},
    refLookup r m = some v → (r, v) ∈ m := by
  intro m
  induction m with
  | nil => intro h; simp [refLookup] at h
  | cons p t ih =>
    intro h
    obtain ⟨k, w⟩ := p
    by_cases hk : k = r
    · subst hk
      simp [refLookup] at h
      simp [h]
    · simp [refLookup, hk] at h
      exact List.mem_cons_of_mem _ (ih h)

theorem mem_refRemove {r : Nat} {p : Nat × Nat} : ∀ {m : List (Nat × Nat)},
    p ∈ refRemove r m → p ∈ m := by
  intro m
  induction m with
  | nil => intro h; simp [refRemove] at h
  | cons q t ih =>
    intro h
    obtain ⟨k, w⟩ := q
    by_cases hk : k = r
    · simp [refRemove, hk] at h
      exact List.mem_cons_of_mem _ (ih h)
    · simp [refRemove, hk] at h
      rcases h with h | h
      · simp [h]
      · exact List.mem_cons_of_mem _ (ih h)

theorem refLookup_refRemove_ne {k r : Nat} (hne : k ≠ r) : ∀ {m : List (Nat × Nat)},
    refLookup k (refRemove r m) = refLookup k m := by
  intro m
  induction m with
  | nil => simp [refRemove]
  | cons q t ih =>
    obtain ⟨a, w⟩ := q
    by_cases ha : a = r
    · subst ha
      have hak : a ≠ k := fun h => hne h.symm
      simp [refRemove, refLookup, hak, ih]
    · simp only [refRemove, if_neg ha, refLookup, ih]

theorem buildRefMapAux_lookup {r v : Nat} :
    ∀ (l : List IndexedItem) (start : Nat) (m : List (Nat × Nat)),
    refLookup r (buildRefMapAux start l m) = some v →
    (∃ j, ∃ h : j < l.length, v = start + j ∧ (l.get ⟨j, h⟩).file_ref = r) ∨
      refLookup r m = some v := by
  intro l
  induction l with
  | nil => intro start m h; exact Or.inr h
  | cons it rest ih =>
    intro start m h
    rcases ih (start + 1) ((it.file_ref, start) :: m) h with ⟨j, hj, hv, hr⟩ | h2
    · exact Or.inl ⟨j + 1, by simpa using Nat.succ_lt_succ hj, by omega, by simpa using hr⟩
    · by_cases hk : it.file_ref = r
      · left
        refine ⟨0, by simp, ?_, by simpa using hk⟩
        simp [refLookup, hk] at h2
        omega
      · right
        simpa [refLookup, hk] using h2

theorem refLookup_buildRefMapAux_isSome {r : Nat} :
    ∀ (l : List IndexedItem) (start : Nat) (m : List (Nat × Nat)),
    refLookup r m ≠ none →
    refLookup r (buildRefMapAux start l m) ≠ none := by
  intro l
  induction l with
  | nil => intro start m h; exact h
  | cons it rest ih =>
    intro start m h
    refine ih (start + 1) _ ?_
    by_cases hk : it.file_ref = r
    · simp [refLookup, hk]
    · simpa [refLookup, hk] using h

theorem buildRefMapAux_complete {r : Nat} :
    ∀ (l : List IndexedItem) (start : Nat) (m : List (Nat × Nat))
    (j : Nat) (h : j < l.length), (l.get ⟨j, h⟩).file_ref = r →
    refLookup r (buildRefMapAux start l m) ≠ none := by
  intro l
  induction l with
  | nil => intro start m j h; simp at h
  | cons it rest ih =>
    intro start m j h hr
    cases j with
    | zero =>
      simp at hr
      refine refLookup_buildRefMapAux_isSome rest (start + 1) _ ?_
      simp [refLookup, hr]
    | succ j =>
      exact ih (start + 1) _ j (by simpa using Nat.lt_of_succ_lt_succ h) (by simpa using hr)

theorem buildRefMapAux_mem {p : Nat × Nat} :
    ∀ (l : List IndexedItem) (start : Nat) (m : List (Nat × Nat)),
    p ∈ buildRefMapAux start l m →
    (∃ j, ∃ h : j < l.length, p = ((l.get ⟨j, h⟩).file_ref, start + j)) ∨ p ∈ m := by
  intro l
  induction l with
  | nil => intro start m h; exact Or.inr h
  | cons it rest ih =>
    intro start m h
    rcases ih (start + 1) _ h with ⟨j, hj, hp⟩ | h2
    · exact Or.inl ⟨j + 1, by simpa using Nat.succ_lt_succ hj, by simpa [Nat.add_assoc, Nat.add_comm 1 j] using hp⟩
    · rcases List.mem_cons.mp h2 with h3 | h3
      · exact Or.inl ⟨0, by simp, by simpa using h3⟩
      · exact Or.inr h3

@[simp] theorem relower_name (it : IndexedItem) : (relower it).name = it.name := rfl

@[simp] theorem relower_path (it : IndexedItem) : (relower it).path = it.path := rfl

@[simp] theorem relower_file_ref (it : IndexedItem) : (relower it).file_ref = it.file_ref := rfl

@[simp] theorem clearItem_name (it : IndexedItem) : (clearItem it).name = "" := rfl

@[simp] theorem clearItem_path (it : IndexedItem) : (clearItem it).path = "" := rfl

@[simp] theorem clearItem_file_ref (it : IndexedItem) : (clearItem it).file_ref = it.file_ref := rfl

@[simp] theorem itemLive_relower (it : IndexedItem) : ItemLive (relower it) ↔ ItemLive it :=
  Iff.rfl

theorem wf_build (input : List IndexedItem)
    (hinj : RefInj input) (hclean : CleanInput input) : WF (buildIndex input) := by
  refine ⟨?_, ?_, ?_⟩
  · intro i hlive
    have hlen : (buildIndex input).items.length = input.length := by
      simp [buildIndex]
    have hi : (i : Nat) < input.length := by omega
    have hget : (buildIndex input).items.get i = relower (input.get ⟨i, hi⟩) := by
      simp [buildIndex, List.get_eq_getElem]
    rw [hget] at hlive ⊢
    simp only [relower_file_ref]
    have hne := buildRefMapAux_complete input 0 [] i hi rfl
    cases hv : refLookup (input.get ⟨i, hi⟩).file_ref (buildRefMapAux 0 input []) with
    | none => exact absurd hv hne
    | some v =>
      rcases buildRefMapAux_lookup input 0 [] hv with ⟨j, hj, hjv, hjr⟩ | habs
      · have hji : j = (i : Nat) := by
          simpa using congrArg Fin.val (hinj ⟨j, hj⟩ ⟨i, hi⟩ hjr)
        have hvi : v = (i : Nat) := by omega
        have hmap : (buildIndex input).refMap = buildRefMapAux 0 input [] := rfl
        rw [hmap, hv, hvi]
      · simp [refLookup] at habs
  · intro p hp
    have hp2 : p ∈ buildRefMapAux 0 input [] := by
      simpa [buildIndex] using hp
    rcases buildRefMapAux_mem input 0 [] hp2 with ⟨j, hj, hpj⟩ | habs
    · have hlt : j < (buildIndex input).items.length := by
        simpa [buildIndex] using hj
      subst hpj
      refine ⟨by simpa using hlt, ?_⟩
      show ((buildIndex input).items.getD (0 + j) default).file_ref
          = (input.get ⟨j, hj⟩).file_ref
      rw [Nat.zero_add, getD_eq_of_lt hlt]
      simp [buildIndex]
    · simp at habs
  · intro i hdead
    have hlen : (buildIndex input).items.length = input.length := by
      simp [buildIndex]
    have hi : (i : Nat) < input.length := by omega
    have hget : (buildIndex input).items.get i = relower (input.get ⟨i, hi⟩) := by
      simp [buildIndex, List.get_eq_getElem]
    rw [hget] at hdead ⊢
    simp only [relower_path]
    refine hclean _ (List.get_mem _ _ _) ?_
    simpa [ItemLive] using hdead

@[simp] theorem addFile_items (it : IndexedItem) (s : IndexState) :
    (addFile it s).items = s.items ++ [relower it] := rfl

@[simp] theorem addFile_refMap (it : IndexedItem) (s : IndexState) :
    (addFile it s).refMap = (it.file_ref, s.items.length) :: s.refMap := rfl

theorem wf_addFile (s : IndexState) (it : IndexedItem) (hwf : WF s)
    (hfresh : ∀ i : Fin s.items.length, ItemLive (s.items.get i) →
      (s.items.get i).file_ref ≠ it.file_ref)
    (hclean : it.name = "" → it.path = "") : WF (addFile it s) := by
  obtain ⟨hlm, hmv, htc⟩ := hwf
  have hlen : (addFile it s).items.length = s.items.length + 1 := by simp
  refine ⟨?_, ?_, ?_⟩
  · intro i hlive
    by_cases hn : (i : Nat) < s.items.length
    · have hget : (addFile it s).items.get i = s.items.get ⟨i, hn⟩ := by
        simp [List.get_eq_getElem, List.getElem_append_left hn]
      rw [hget] at hlive ⊢
      have hne := hfresh ⟨i, hn⟩ hlive
      have hold := hlm ⟨i, hn⟩ hlive
      simp only [addFile_refMap, refLookup]
      rw [if_neg (fun h => hne h.symm)]
      exact hold
    · have hi : (i : Nat) = s.items.length := by omega
      have hget : (addFile it s).items.get i = relower it := by
        simp only [List.get_eq_getElem, addFile_items]
        rw [List.getElem_append_right (by omega)]
        simp [hi]
      rw [hget]
      simp only [relower_file_ref, addFile_refMap, refLookup, if_pos rfl]
      rw [hi]
      simp
  · intro p hp
    simp only [addFile_refMap] at hp
    rcases List.mem_cons.mp hp with h | h
    · subst h
      refine ⟨by simp, ?_⟩
      have hl : s.items.length < (addFile it s).items.length := by omega
      rw [getD_eq_of_lt hl]
      simp only [addFile_items]
      rw [List.getElem_append_right (by omega)]
      simp
    · obtain ⟨h1, h2⟩ := hmv p h
      refine ⟨by omega, ?_⟩
      have hl : p.2 < (addFile it s).items.length := by omega
      rw [getD_eq_of_lt hl]
      simp only [addFile_items]
      rw [List.getElem_append_left h1]
      rw [getD_eq_of_lt h1] at h2
      exact h2
  · intro i hdead
    by_cases hn : (i : Nat) < s.items.length
    · have hget : (addFile it s).items.get i = s.items.get ⟨i, hn⟩ := by
        simp [List.get_eq_getElem, List.getElem_append_left hn]
      rw [hget] at hdead ⊢
      exact htc ⟨i, hn⟩ hdead
    · have hi : (i : Nat) = s.items.length := by omega
      have hget : (addFile it s).items.get i = relower it := by
        simp only [List.get_eq_getElem, addFile_items]
        rw [List.getElem_append_right (by omega)]
        simp [hi]
      rw [hget] at hdead ⊢
      simp only [relower_path]
      refine hclean ?_
      simpa [ItemLive] using hdead

theorem removeFile_snd_of_lookup {r : Nat} {s : IndexState} {idx : Nat}
    (hl : refLookup r s.refMap = some idx) :
    (removeFile r s).snd =
      { s with refMap := refRemove r s.refMap,
               items := if idx < s.items.length then
                   s.items.set idx (clearItem (s.items.getD idx default))
                 else s.items,
               dirty := true } := by
  simp [removeFile, hl]

theorem removeFile_fst_iff (r : Nat) (s : IndexState) :
    (removeFile r s).fst = true ↔ ∃ idx, refLookup r s.refMap = some idx := by
  cases h : refLookup r s.refMap <;> simp [removeFile, h]


theorem wf_tombstone (s t : IndexState) (idx r : Nat)
    (hlm : LiveMapped s) (hmv : MapEntriesValid s) (htc : TombClean s)
    (hidxlt : idx < s.items.length)
    (hlook : refLookup r s.refMap = some idx)
    (hti : t.items = s.items.set idx (clearItem (s.items.getD idx default)))
    (htm : t.refMap = refRemove r s.refMap) : WF t := by
  unfold WF LiveMapped MapEntriesValid TombClean
  rw [hti, htm]
  have hlen2 : (s.items.set idx (clearItem (s.items.getD idx default))).length
      = s.items.length := by simp
  refine ⟨?_, ?_, ?_⟩
  · intro i hlive
    have hilt : (i : Nat) < s.items.length := by
      have h := i.isLt
      omega
    by_cases hii : (i : Nat) = idx
    · exfalso
      have hg : (s.items.set idx (clearItem (s.items.getD idx default))).get i
          = clearItem (s.items.getD idx default) := by
        simp [List.get_eq_getElem, hii]
      rw [hg] at hlive
      simp [ItemLive] at hlive
    · have hg : (s.items.set idx (clearItem (s.items.getD idx default))).get i
          = s.items.get ⟨i, hilt⟩ := by
        simp only [List.get_eq_getElem]
        exact List.getElem_set_ne (fun h => hii h.symm) _
      rw [hg] at hlive ⊢
      have hold := hlm ⟨i, hilt⟩ hlive
      have hner : (s.items.get ⟨i, hilt⟩).file_ref ≠ r := by
        intro hr
        rw [hr, hlook] at hold
        exact hii (by simpa using hold.symm)
      rw [refLookup_refRemove_ne hner]
      exact hold
  · intro p hp
    have hp2 := mem_refRemove hp
    obtain ⟨h1, h2⟩ := hmv p hp2
    refine ⟨by omega, ?_⟩
    have hl2 : p.2 < (s.items.set idx (clearItem (s.items.getD idx default))).length := by
      omega
    rw [getD_eq_of_lt hl2]
    rw [getD_eq_of_lt h1] at h2
    by_cases hpi : p.2 = idx
    · subst hpi
      have he : (s.items.set p.2 (clearItem (s.items.getD p.2 default)))[p.2]
          = clearItem (s.items.getD p.2 default) := by
        simp
      rw [he, clearItem_file_ref, getD_eq_of_lt h1]
      exact h2
    · have he : (s.items.set idx (clearItem (s.items.getD idx default)))[p.2]
          = s.items[p.2] := by
        exact List.getElem_set_ne (fun h => hpi h.symm) _
      rw [he]
      exact h2
  · intro i hdead
    have hilt : (i : Nat) < s.items.length := by
      have h := i.isLt
      omega
    by_cases hii : (i : Nat) = idx
    · have hg : (s.items.set idx (clearItem (s.items.getD idx default))).get i
          = clearItem (s.items.getD idx default) := by
        simp [List.get_eq_getElem, hii]
      rw [hg]
      simp
    · have hg : (s.items.set idx (clearItem (s.items.getD idx default))).get i
          = s.items.get ⟨i, hilt⟩ := by
        simp only [List.get_eq_getElem]
        exact List.getElem_set_ne (fun h => hii h.symm) _
      rw [hg] at hdead ⊢
      exact htc ⟨i, hilt⟩ hdead

theorem wf_removeFile (s : IndexState) (r : Nat) (hwf : WF s) :
    WF (removeFile r s).snd := by
  obtain ⟨hlm, hmv, htc⟩ := hwf
  cases hl : refLookup r s.refMap with
  | none =>
    have h : (removeFile r s).snd = s := by simp [removeFile, hl]
    rw [h]
    exact ⟨hlm, hmv, htc⟩
  | some idx =>
    obtain ⟨hidxlt, _⟩ := hmv (r, idx) (refLookup_mem hl)
    have hsnd := removeFile_snd_of_lookup hl
    rw [if_pos hidxlt] at hsnd
    refine wf_tombstone s _ idx r hlm hmv htc hidxlt hl ?_ ?_
    · rw [hsnd]
    · rw [hsnd]

theorem normPath_ne_empty {p : String} (hp : p ≠ "") : normPath p ≠ "" := by
  intro h
  apply hp
  have hd : (normPath p).data = [] := by rw [h]
  have hd2 : ((p.toList.map fun c => if c = '/' then '\\' else c).map Char.toLower) = [] := hd
  have hd3 : p.toList = [] := by
    simpa using hd2
  exact String.ext hd3

theorem findPathIdx_spec {p : String} :
    ∀ {l : List IndexedItem} {i : Nat}, findPathIdx p l = some i →
    ∃ h : i < l.length, strLower ((l.get ⟨i, h⟩).path) = p := by
  intro l
  induction l with
  | nil => intro i h; simp [findPathIdx] at h
  | cons it rest ih =>
    intro i h
    by_cases hm : strLower it.path = p
    · simp [findPathIdx, hm] at h
      subst h
      exact ⟨by simp, by simpa using hm⟩
    · simp [findPathIdx, hm] at h
      obtain ⟨j, hj, hji⟩ := h
      obtain ⟨hlt, hpath⟩ := ih hj
      subst hji
      exact ⟨by simpa using Nat.succ_lt_succ hlt, by simpa using hpath⟩

theorem wf_removeFileByPath (s : IndexState) (p : String) (hwf : WF s) (hp : p ≠ "") :
    WF (removeFileByPath p s).snd := by
  obtain ⟨hlm, hmv, htc⟩ := hwf
  cases hf : findPathIdx (normPath p) s.items with
  | none =>
    have h : (removeFileByPath p s).snd = s := by simp [removeFileByPath, hf]
    rw [h]
    exact ⟨hlm, hmv, htc⟩
  | some idx =>
    obtain ⟨hidxlt, hpath⟩ := findPathIdx_spec hf
    have hlive : ItemLive (s.items.get ⟨idx, hidxlt⟩) := by
      by_contra hdead
      have h0 := htc ⟨idx, hidxlt⟩ hdead
      rw [h0] at hpath
      exact normPath_ne_empty hp hpath.symm
    have hlook := hlm ⟨idx, hidxlt⟩ hlive
    have hgetD : s.items.getD idx default = s.items.get ⟨idx, hidxlt⟩ := by
      rw [getD_eq_of_lt hidxlt]
      simp [List.get_eq_getElem]
    refine wf_tombstone s _ idx (s.items.get ⟨idx, hidxlt⟩).file_ref hlm hmv htc hidxlt
      hlook ?_ ?_
    · show (removeFileByPath p s).snd.items = _
      simp [removeFileByPath, hf]
    · show (removeFileByPath p s).snd.refMap = _
      simp [removeFileByPath, hf, List.getElem?_eq_getElem hidxlt, List.get_eq_getElem]

theorem wf_claimInv (s : IndexState) (hwf : WF s) : ClaimInv s := by
  obtain ⟨hlm, _, _⟩ := hwf
  refine ⟨hlm, ?_⟩
  intro i j hi hj hij
  have h1 := hlm i hi
  have h2 := hlm j hj
  rw [hij] at h1
  rw [h1] at h2
  exact Fin.ext (by simpa using h2)

theorem mapValid_build (input : List IndexedItem) : MapEntriesValid (buildIndex input) := by
  intro p hp
  have hp2 : p ∈ buildRefMapAux 0 input [] := by
    simpa [buildIndex] using hp
  rcases buildRefMapAux_mem input 0 [] hp2 with ⟨j, hj, hpj⟩ | habs
  · have hlt : j < (buildIndex input).items.length := by
      simpa [buildIndex] using hj
    subst hpj
    refine ⟨by simpa using hlt, ?_⟩
    show ((buildIndex input).items.getD (0 + j) default).file_ref
        = (input.get ⟨j, hj⟩).file_ref
    rw [Nat.zero_add, getD_eq_of_lt hlt]
    simp [buildIndex]
  · simp at habs

theorem mapValid_addFile (s : IndexState) (it : IndexedItem) (hmv : MapEntriesValid s) :
    MapEntriesValid (addFile it s) := by
  intro p hp
  simp only [addFile_refMap] at hp
  rcases List.mem_cons.mp hp with h | h
  · subst h
    refine ⟨by simp, ?_⟩
    have hl : s.items.length < (addFile it s).items.length := by simp
    rw [getD_eq_of_lt hl]
    simp only [addFile_items]
    rw [List.getElem_append_right (by omega)]
    simp
  · obtain ⟨h1, h2⟩ := hmv p h
    have hl : p.2 < (addFile it s).items.length := by simp; omega
    refine ⟨hl, ?_⟩
    rw [getD_eq_of_lt hl]
    simp only [addFile_items]
    rw [List.getElem_append_left h1]
    rw [getD_eq_of_lt h1] at h2
    exact h2

theorem mapValid_tombstone (s t : IndexState) (idx r : Nat) (hmv : MapEntriesValid s)
    (hti : t.items = s.items.set idx (clearItem (s.items.getD idx default)))
    (htm : t.refMap = refRemove r s.refMap) : MapEntriesValid t := by
  unfold MapEntriesValid
  rw [hti, htm]
  intro p hp
  obtain ⟨h1, h2⟩ := hmv p (mem_refRemove hp)
  have hl2 : p.2 < (s.items.set idx (clearItem (s.items.getD idx default))).length := by
    simp
    omega
  refine ⟨hl2, ?_⟩
  rw [getD_eq_of_lt hl2]
  rw [getD_eq_of_lt h1] at h2
  by_cases hpi : p.2 = idx
  · subst hpi
    have he : (s.items.set p.2 (clearItem (s.items.getD p.2 default)))[p.2]
        = clearItem (s.items.getD p.2 default) := by
      simp
    rw [he, clearItem_file_ref, getD_eq_of_lt h1]
    exact h2
  · have he : (s.items.set idx (clearItem (s.items.getD idx default)))[p.2]
        = s.items[p.2] := List.getElem_set_ne (fun h => hpi h.symm) _
    rw [he]
    exact h2

theorem mapValid_removeFile (s : IndexState) (r : Nat) (hmv : MapEntriesValid s) :
    MapEntriesValid (removeFile r s).snd := by
  cases hl : refLookup r s.refMap with
  | none =>
    have h : (removeFile r s).snd = s := by simp [removeFile, hl]
    rw [h]
    exact hmv
  | some idx =>
    obtain ⟨hidxlt, _⟩ := hmv (r, idx) (refLookup_mem hl)
    have hsnd := removeFile_snd_of_lookup hl
    rw [if_pos hidxlt] at hsnd
    refine mapValid_tombstone s _ idx r hmv ?_ ?_
    · rw [hsnd]
    · rw [hsnd]

theorem mapValid_removeFileByPath (s : IndexState) (p : String) (hmv : MapEntriesValid s) :
    MapEntriesValid (removeFileByPath p s).snd := by
  cases hf : findPathIdx (normPath p) s.items with
  | none =>
    have h : (removeFileByPath p s).snd = s := by simp [removeFileByPath, hf]
    rw [h]
    exact hmv
  | some idx =>
    refine mapValid_tombstone s _ idx (s.items.getD idx default).file_ref hmv ?_ ?_
    · show (removeFileByPath p s).snd.items = _
      simp [removeFileByPath, hf]
    · show (removeFileByPath p s).snd.refMap = _
      simp [removeFileByPath, hf]

theorem reachable_mapValid (s : IndexState) (hs : Reachable s) : MapEntriesValid s := by
  induction hs with
  | new => intro p hp; simp [emptyIndex] at hp
  | build input => exact mapValid_build input
  | add it s _ ih => exact mapValid_addFile s it ih
  | remove r s _ ih => exact mapValid_removeFile s r ih
  | removeByPath p s _ ih => exact mapValid_removeFileByPath s p ih

/-- ASCII whitespace (`\s` / `split_whitespace` model: space, tab,
newline, vertical tab, form feed, carriage return). -/
def isWS (c : Char) : Bool :=
  c == ' ' || c == '\t' || c == '\n' || c == '\r' || c.toNat == 11 || c.toNat == 12

/-- Case-insensitive literal token match at the head of the text
(the `(?i)` literal part of each filter regex). -/
def tokAt : List Char → List Char → Bool
  | [], _ => true
  | _ :: _, [] => false
  | p :: ps, c :: cs => (p.toLower == c.toLower) && tokAt ps cs

/-- A match attempt that fires only where the literal token leads; the
body consumes the remainder of the pattern and returns the total match
length and the capture. -/
def guardedTry {κ : Type} (tok : List Char) (body : List Char → Option (Nat × κ))
    (t : List Char) : Option (Nat × κ) :=
  if tokAt tok t then body t else none

/-- Left-to-right scan removing every non-overlapping match and
collecting the captures in order, as `Regex::replace_all` and
`captures_iter` do.  The fuel strictly exceeds the number of scan steps
at every call site (each step consumes at least one character). -/
def scanAllF {κ : Type} (f : List Char → Option (Nat × κ)) :
    Nat → List Char → List Char × List κ
  | 0, s => (s, [])
  | _ + 1, [] => ([], [])
  | fuel + 1, c :: rest =>
    match f (c :: rest) with
    | some (n, cap) =>
      let r := scanAllF f fuel (List.drop n (c :: rest))
      (r.1, cap :: r.2)
    | none =>
      let r := scanAllF f fuel rest
      (c :: r.1, r.2)

/-- Whole-text scan with sufficient fuel. -/
def scanAll {κ : Type} (f : List Char → Option (Nat × κ)) (s : List Char) :
    List Char × List κ :=
  scanAllF f (s.length + 1) s

/-- The `ext:` capture class `[a-zA-Z0-9,]`. -/
def extClass (c : Char) : Bool := c.isAlpha || c.isDigit || c == ','

/-- Body of `(?i)ext:([a-zA-Z0-9,]+)` after the `ext:` token. -/
def extBody (t : List Char) : Option (Nat × List Char) :=
  let cap := (t.drop 4).takeWhile extClass
  if cap.isEmpty then none else some (4 + cap.length, cap)

/-- Rust `str::split(',')` on a capture. -/
def splitComma : List Char → List (List Char)
  | [] => [[]]
  | c :: t =>
    if c == ',' then [] :: splitComma t
    else
      match splitComma t with
      | [] => [[c]]
      | g :: gs => (c :: g) :: gs

/-- `extract_ext`: remove every `ext:` match, extending the filter list
with the lowercased nonempty comma-separated entries of each capture. -/
def extractExt (t : List Char) : List Char × List String :=
  let r := scanAll (guardedTry "ext:".toList extBody) t
  (r.1,
   (r.2.map fun cap =>
     (splitComma cap).filterMap fun e =>
       let el := e.map Char.toLower
       if el.isEmpty then none else some (String.mk el)).flatten)

/-- Numeric value of a digit run. -/
def digitsVal (ds : List Char) : Nat := ds.foldl (fun a c => a * 10 + (c.toNat - 48)) 0

/-- `parse_size`: `(num * multiplier as f64) as u64`, i.e. the floor of
`(integer_digits . fractional_digits) * multiplier`, computed exactly in
integer arithmetic (`f64` arithmetic is exact on the magnitudes of
interest; the cast truncates toward zero). -/
def sizeValue (ds fds : List Char) (mult : Nat) : Nat :=
  (digitsVal ds * 10 ^ fds.length + digitsVal fds) * mult / 10 ^ fds.length

/-- The `(kb|mb|gb)` unit multipliers (`0` marks no match). -/
def unitMul (u1 u2 : Char) : Nat :=
  if u2.toLower == 'b' then
    if u1.toLower == 'k' then 1024
    else if u1.toLower == 'm' then 1024 * 1024
    else if u1.toLower == 'g' then 1024 * 1024 * 1024
    else 0
  else 0

/-- Body of `(?i)size:[<>](\d+(?:\.\d+)?)(kb|mb|gb)` after the `size:`
token, for the given direction character; the capture is the byte
threshold. -/
def sizeBody (dir : Char) (t : List Char) : Option (Nat × Nat) :=
  match t.drop 5 with
  | [] => none
  | d :: rest =>
    if d == dir then
      let ds := rest.takeWhile Char.isDigit
      if ds.isEmpty then none
      else
        let rest2 := rest.drop ds.length
        let fds :=
          match rest2 with
          | '.' :: r2 => r2.takeWhile Char.isDigit
          | _ => []
        let fracLen := if fds.isEmpty then 0 else fds.length + 1
        match rest2.drop fracLen with
        | u1 :: u2 :: _ =>
          if unitMul u1 u2 ≠ 0 then
            some (5 + 1 + ds.length + fracLen + 2, sizeValue ds fds (unitMul u1 u2))
          else none
        | _ => none
    else none

/-- `extract_size`: the first `size:>` match (if any) sets `size_min` and
all such matches are removed; then the first `size:<` match on the
remaining text sets `size_max` and its matches are removed. -/
def extractSize (t : List Char) : List Char × (Nat × Nat) :=
  let rmin := scanAll (guardedTry "size:".toList (sizeBody '>')) t
  let rmax := scanAll (guardedTry "size:".toList (sizeBody '<')) rmin.1
  (rmax.1, (rmin.2.headD 0, rmax.2.headD 0))

/-- Non-whitespace run body shared by `dm:(\S+)`, `path:(\S+)` and
`name:(\S+)` (`klen` is the token length). -/
def seqBody (klen : Nat) (t : List Char) : Option (Nat × List Char) :=
  let cap := (t.drop klen).takeWhile (fun c => !isWS c)
  if cap.isEmpty then none else some (klen + cap.length, cap)

/-- `extract_date`'s interpretation of the lowercased `dm:` argument,
given the wall clock in seconds (`u64` subtraction modelled on `Nat`). -/
def dateValue (ds : List Char) (now : Nat) : Option Nat :=
  let l := ds.map Char.toLower
  let s := String.mk l
  if s == "today" then some (now - now % 86400)
  else if s == "yesterday" then some (now - 86400 - now % 86400)
  else if s == "week" then some (now - 7 * 86400)
  else if s == "month" then some (now - 30 * 86400)
  else if s == "year" then some (now - now % (365 * 86400))
  else
    let digits := l.dropLast
    match l.getLast? with
    | some u =>
      if !digits.isEmpty && digits.all Char.isDigit then
        if u == 'd' then some (now - digitsVal digits * 86400)
        else if u == 'h' then some (now - digitsVal digits * 3600)
        else if u == 'm' then some (now - digitsVal digits * 60)
        else none
      else none
    | none => none

/-- `extract_date`: remove every `dm:` match; the first capture (when
present) determines the date bound. -/
def extractDate (t : List Char) (now : Nat) : List Char × Option Nat :=
  let r := scanAll (guardedTry "dm:".toList (seqBody 3)) t
  (r.1,
   match r.2 with
   | cap :: _ => dateValue cap now
   | [] => none)

/-- Body of `(?i)path:"([^"]+)"` after the `path:` token. -/
def pathQuotedBody (t : List Char) : Option (Nat × List Char) :=
  match t.drop 5 with
  | '"' :: rest =>
    let cap := rest.takeWhile (fun c => c != '"')
    if cap.isEmpty then none
    else
      match rest.drop cap.length with
      | '"' :: _ => some (5 + 1 + cap.length + 1, cap)
      | _ => none
  | _ => none

/-- `extract_path`: if a complete quoted form occurs anywhere, the first
one sets the filter, only the quoted matches are stripped and the
function returns early; otherwise the unquoted form is used. -/
def extractPath (t : List Char) : List Char × String :=
  let rq := scanAll (guardedTry "path:".toList pathQuotedBody) t
  match rq.2 with
  | cap :: _ => (rq.1, String.mk cap)
  | [] =>
    let ru := scanAll (guardedTry "path:".toList (seqBody 5)) t
    (ru.1,
     match ru.2 with
     | cap :: _ => String.mk cap
     | [] => "")

/-- `extract_name`. -/
def extractName (t : List Char) : List Char × String :=
  let r := scanAll (guardedTry "name:".toList (seqBody 5)) t
  (r.1,
   match r.2 with
   | cap :: _ => String.mk cap
   | [] => "")

/-- `split_whitespace` accumulator. -/
def splitWSAux : List Char → List Char → List (List Char)
  | [], acc => if acc.isEmpty then [] else [acc.reverse]
  | c :: t, acc =>
    if isWS c then
      if acc.isEmpty then splitWSAux t [] else acc.reverse :: splitWSAux t []
    else splitWSAux t (c :: acc)

/-- `text.split_whitespace().collect::<Vec<_>>().join(" ")`. -/
def pureKeyword (t : List Char) : String :=
  String.mk (List.intercalate [' '] (splitWSAux t []))

/-- `SearchSyntaxParser::parse`; `now` abstracts the wall clock read by
the date extractor. -/
def parseQuery (q : String) (now : Nat) : String × SearchFilters :=
  let e := extractExt q.toList
  let sz := extractSize e.1
  let d := extractDate sz.1 now
  let pa := extractPath d.1
  let na := extractName pa.1
  (pureKeyword na.1,
   { ext := e.2, size_min := sz.2.1, size_max := sz.2.2,
     date_after := d.2, path := pa.2, name_pattern := na.2 })

/-- `match_filters` of `commands.rs`, which is line-for-line the same
predicate as `match_item` of `search_syntax.rs`. -/
def matchFilters (item : SearchResult) (f : SearchFilters) : Bool :=
  (f.ext.isEmpty || f.ext.contains (pathExtLower item.filename)) &&
  (f.size_min == 0 || !(decide (item.size < f.size_min))) &&
  (f.size_max == 0 || !(decide (f.size_max < item.size))) &&
  (match f.date_after with
   | none => true
   | some d => !(decide (item.mtime < d))) &&
  (f.path == "" || strContains (strLower item.fullpath) (strLower f.path)) &&
  (f.name_pattern == "" || strContains (strLower item.filename) (strLower f.name_pattern))

example : (parseQuery "invoice ext:pdf,docx size:>1mb" 0).fst = "invoice" := by decide
example : (parseQuery "invoice ext:pdf,docx size:>1mb" 0).snd.ext = ["pdf", "docx"] := by
  decide
example : (parseQuery "invoice ext:pdf,docx size:>1mb" 0).snd.size_min = 1048576 := by
  decide
example : (parseQuery "size:>1gb" 0).snd.size_min = 1073741824 := by decide
example : (parseQuery "size:>1.5kb" 0).snd.size_min = 1536 := by decide
example : (parseQuery "dm:week hello" (86400 * 30)).snd.date_after = some (86400 * 23) := by
  decide

/-- The case-insensitive token occurs somewhere in the text. -/
def hasTok (pat : List Char) : List Char → Bool
  | [] => tokAt pat []
  | c :: t => tokAt pat (c :: t) || hasTok pat t

theorem guardedTry_tokAt {κ : Type} {tok : List Char}
    {body : List Char → Option (Nat × κ)} {t : List Char}
    (h : guardedTry tok body t ≠ none) : tokAt tok t = true := by
  unfold guardedTry at h
  by_cases hc : tokAt tok t = true
  · exact hc
  · rw [if_neg (by simpa using hc)] at h
    exact absurd rfl h

theorem scanAllF_noop {κ : Type} (f : List Char → Option (Nat × κ)) (tok : List Char)
    (hm : ∀ t, f t ≠ none → tokAt tok t = true) :
    ∀ (fuel : Nat) (s : List Char), hasTok tok s = false → scanAllF f fuel s = (s, []) := by
  intro fuel
  induction fuel with
  | zero => intro s _; rfl
  | succ n ih =>
    intro s h
    cases s with
    | nil => rfl
    | cons c rest =>
      have h2 : tokAt tok (c :: rest) = false ∧ hasTok tok rest = false := by
        have := h
        simp only [hasTok, Bool.or_eq_false_iff] at this
        exact this
      cases hf : f (c :: rest) with
      | some v =>
        have := hm (c :: rest) (by simp [hf])
        rw [h2.1] at this
        exact absurd this (by simp)
      | none =>
        simp [scanAllF, hf, ih rest h2.2]

theorem scanAll_noop {κ : Type} (tok : List Char) (body : List Char → Option (Nat × κ))
    (s : List Char) (h : hasTok tok s = false) :
    scanAll (guardedTry tok body) s = (s, []) :=
  scanAllF_noop _ tok (fun _ ht => guardedTry_tokAt ht) _ s h

/-- The keyword contains none of the filter-introducing tokens. -/
def NoFilterTok (s : String) : Prop :=
  hasTok "ext:".toList s.toList = false ∧
  hasTok "size:".toList s.toList = false ∧
  hasTok "dm:".toList s.toList = false ∧
  hasTok "path:".toList s.toList = false ∧
  hasTok "name:".toList s.toList = false

instance (s : String) : Decidable (NoFilterTok s) := by
  unfold NoFilterTok; infer_instance

theorem parseQuery_noFilterTok (s : String) (now : Nat) (h : NoFilterTok s) :
    (parseQuery s now).snd = emptyFilters := by
  obtain ⟨he, hs, hd, hp, hn⟩ := h
  have g1 : scanAll (guardedTry "ext:".toList extBody) s.toList = (s.toList, []) :=
    scanAll_noop _ _ _ he
  have g2 : scanAll (guardedTry "size:".toList (sizeBody '>')) s.toList = (s.toList, []) :=
    scanAll_noop _ _ _ hs
  have g3 : scanAll (guardedTry "size:".toList (sizeBody '<')) s.toList = (s.toList, []) :=
    scanAll_noop _ _ _ hs
  have g4 : scanAll (guardedTry "dm:".toList (seqBody 3)) s.toList = (s.toList, []) :=
    scanAll_noop _ _ _ hd
  have g5 : scanAll (guardedTry "path:".toList pathQuotedBody) s.toList = (s.toList, []) :=
    scanAll_noop _ _ _ hp
  have g6 : scanAll (guardedTry "path:".toList (seqBody 5)) s.toList = (s.toList, []) :=
    scanAll_noop _ _ _ hp
  have g7 : scanAll (guardedTry "name:".toList (seqBody 5)) s.toList = (s.toList, []) :=
    scanAll_noop _ _ _ hn
  have he2 : extractExt s.toList = (s.toList, []) := by
    unfold extractExt; simp only [g1]; rfl
  have hs2 : extractSize s.toList = (s.toList, (0, 0)) := by
    unfold extractSize; simp only [g2, g3]; rfl
  have hd2 : extractDate s.toList now = (s.toList, none) := by
    unfold extractDate; simp only [g4]
  have hp2 : extractPath s.toList = (s.toList, "") := by
    unfold extractPath; simp only [g5, g6]
  have hn2 : extractName s.toList = (s.toList, "") := by
    unfold extractName; simp only [g7]
  unfold parseQuery
  simp only [he2, hs2, hd2, hp2, hn2]
  rfl

instance (s : IndexState) : Decidable (LiveMapped s) := by
  unfold LiveMapped; infer_instance

instance (s : IndexState) : Decidable (RefUniqueLive s) := by
  unfold RefUniqueLive; infer_instance

instance (s : IndexState) : Decidable (ClaimInv s) := by
  unfold ClaimInv; infer_instance

instance (s : IndexState) : Decidable (MapEntriesValid s) := by
  unfold MapEntriesValid; infer_instance

instance (s : IndexState) : Decidable (TombClean s) := by
  unfold TombClean; infer_instance

instance (s : IndexState) : Decidable (WF s) := by
  unfold WF; infer_instance

instance (input : List IndexedItem) : Decidable (RefInj input) := by
  unfold RefInj; infer_instance

instance (input : List IndexedItem) : Decidable (CleanInput input) := by
  unfold CleanInput; infer_instance

theorem liveB_iff (it : IndexedItem) : liveB it = true ↔ ItemLive it := by
  simp [liveB, ItemLive]

theorem filter_liveB_map_relower : ∀ l : List IndexedItem,
    (l.map relower).filter liveB = (l.filter liveB).map relower := by
  intro l
  induction l with
  | nil => rfl
  | cons it t ih =>
    cases hb : liveB it <;>
      simp [List.filter_cons, show liveB (relower it) = liveB it from rfl, hb, ih]

theorem searchContains_mem_refs (s : IndexState) (r : Nat) (q : String) (maxR : Nat)
    (hlm : LiveMapped s) (hrem : (removeFile r s).fst = true) :
    ∀ it ∈ searchContains q maxR (removeFile r s).snd, it.file_ref ≠ r := by
  obtain ⟨idx, hl⟩ := (removeFile_fst_iff r s).mp hrem
  intro it hit heq
  have hit2 : it ∈ ((removeFile r s).snd.items.filter fun x =>
      liveB x && strContains x.name_lower (strLower q)) :=
    List.mem_of_mem_take hit
  have hit3 := List.mem_filter.mp hit2
  have hlive : ItemLive it := by
    have hb := hit3.2
    rw [Bool.and_eq_true] at hb
    exact (liveB_iff it).mp hb.1
  have hitems : (removeFile r s).snd.items =
      if idx < s.items.length then
        s.items.set idx (clearItem (s.items.getD idx default))
      else s.items := by
    rw [removeFile_snd_of_lookup hl]
  rw [hitems] at hit3
  by_cases hbound : idx < s.items.length
  · rw [if_pos hbound] at hit3
    obtain ⟨i, hlt, hgi⟩ := List.mem_iff_getElem.mp hit3.1
    have hlt2 : i < s.items.length := by simpa using hlt
    by_cases hii : i = idx
    · subst hii
      have : (s.items.set i (clearItem (s.items.getD i default)))[i]
          = clearItem (s.items.getD i default) := by simp
      rw [this] at hgi
      rw [← hgi] at hlive
      simp [ItemLive] at hlive
    · have : (s.items.set idx (clearItem (s.items.getD idx default)))[i]
          = s.items[i] := List.getElem_set_ne (fun h => hii h.symm) _
      rw [this] at hgi
      have hmap := hlm ⟨i, hlt2⟩ (by simpa [List.get_eq_getElem, hgi] using hlive)
      rw [List.get_eq_getElem] at hmap
      simp only [hgi, heq] at hmap
      rw [hl] at hmap
      exact hii (by simpa using hmap.symm)
  · rw [if_neg hbound] at hit3
    obtain ⟨i, hlt, hgi⟩ := List.mem_iff_getElem.mp hit3.1
    have hmap := hlm ⟨i, hlt⟩ (by simpa [List.get_eq_getElem, hgi] using hlive)
    rw [List.get_eq_getElem] at hmap
    simp only [hgi, heq] at hmap
    rw [hl] at hmap
    have : i = idx := by simpa using hmap.symm
    omega

theorem roundtrip_remove_again (s : IndexState) (r : Nat) (hs : Reachable s)
    (hrem : (removeFile r s).fst = true) :
    (removeFile r (loadBlob (saveBlob (removeFile r s).snd))).fst = true := by
  obtain ⟨idx, hl⟩ := (removeFile_fst_iff r s).mp hrem
  obtain ⟨hidxlt, hidxref⟩ := reachable_mapValid s hs (r, idx) (refLookup_mem hl)
  rw [getD_eq_of_lt hidxlt] at hidxref
  have hitems : (removeFile r s).snd.items =
      s.items.set idx (clearItem (s.items.getD idx default)) := by
    rw [removeFile_snd_of_lookup hl, if_pos hidxlt]
  have hlen1 : idx < (removeFile r s).snd.items.length := by
    rw [hitems]; simpa using hidxlt
  have hval : (removeFile r s).snd.items[idx] = clearItem (s.items.getD idx default) := by
    have h3 : (removeFile r s).snd.items[idx]?
        = some (clearItem (s.items.getD idx default)) := by
      rw [hitems]
      exact List.getElem?_set_self hidxlt
    rw [List.getElem?_eq_getElem hlen1] at h3
    exact Option.some_injective _ h3
  have hblt : idx < (saveBlob (removeFile r s).snd).length := by
    simpa [saveBlob] using hlen1
  have hrefb : ((saveBlob (removeFile r s).snd).get ⟨idx, hblt⟩).file_ref = r := by
    simp only [saveBlob, List.get_eq_getElem, List.getElem_map]
    rw [hval, clearItem_file_ref, getD_eq_of_lt hidxlt]
    exact hidxref
  have hne := buildRefMapAux_complete (saveBlob (removeFile r s).snd) 0 [] idx hblt hrefb
  apply (removeFile_fst_iff _ _).mpr
  have hmapeq : (loadBlob (saveBlob (removeFile r s).snd)).refMap
      = buildRefMapAux 0 (saveBlob (removeFile r s).snd) [] := rfl
  cases hx : refLookup r (loadBlob (saveBlob (removeFile r s).snd)).refMap with
  | none =>
    rw [hmapeq] at hx
    exact absurd hx hne
  | some v => exact ⟨v, rfl⟩

/-- Claim C1: the claim states that every query operation skips
tombstoned items.  This theorem evaluates the code at a failing input:
after `build` of one item and `remove_file` of its reference (which
returns `true`, so the slot is tombstoned), `search_by_extension` and
`search_by_mtime_range` both still return the tombstoned slot (an item
with cleared name), because unlike `search_prefix` and
`search_contains` they have no `!item.name.is_empty()` filter. -/
theorem C1_tombstones_escape_ext_and_mtime_queries :
    (removeFile 1 (buildIndex [mkItem "a.txt" "c:\\a.txt" 1 10 5])).fst = true ∧
    ((searchByExtension "txt" 10
        (removeFile 1 (buildIndex [mkItem "a.txt" "c:\\a.txt" 1 10 5])).snd).any
      fun it => it.name == "") = true ∧
    ((searchByMtimeRange 0 10 10
        (removeFile 1 (buildIndex [mkItem "a.txt" "c:\\a.txt" 1 10 5])).snd).any
      fun it => it.name == "") = true := by
  decide

/-- Claim C2, counterexample: the claim says a persisted blob loads
against a volume iff its recorded journal identifier equals the volume's
current one.  A directory-cache blob recorded for drive 67 (`C`) loaded
against drive 68 (`D`) fails even though the journal identifiers agree
(`7 = 7`), because `load_dir_cache` also checks the version and drive
fields. -/
theorem C2_counterexample :
    loadDirCache ⟨1, 67, 7, []⟩ 68 7 = 0 ∧
    (⟨1, 67, 7, []⟩ : PersistDirCache).journal_id = 7 := by
  decide

/-- Claim C2, amended: loading a decoded directory-cache blob succeeds
iff the volume's current journal identifier is nonzero, the blob has
version 1, the blob's drive equals the volume being loaded, and the
recorded journal identifier equals the current one.  (The search-index
blob itself records no journal identifier at all: `load_from_file` is
deserialization followed by `build`, with no journal check.) -/
theorem C2_load_dir_cache_success_iff (blob : PersistDirCache) (drive journalNow : Nat) :
    loadDirCache blob drive journalNow = 1 ↔
      journalNow ≠ 0 ∧ blob.version = 1 ∧ blob.drive = drive ∧
        blob.journal_id = journalNow := by
  unfold loadDirCache
  split_ifs <;> simp_all

/-- Claim C3, counterexample: the claim says a record whose reason
contains `CREATE` is emitted as an add, and a record with
`DATA_EXTEND`/`DATA_OVERWRITE` (and none of the rename/delete bits) is
emitted as update-metadata.  The pre-filter of `get_changes_since`
skips any record with none of `DELETE`, `RENAME_OLD`, `RENAME_NEW` and
without `CLOSE`; hence a `CREATE`-only record and a `DATA_EXTEND`-only
record are both ignored. -/
theorem C3_counterexample :
    classify uFileCreate = none ∧ uFileCreate &&& uFileCreate ≠ 0 ∧
    classify uDataExtend = none := by
  decide

/-- Claim C3, amended: the emitted action is `remove` when the reason
contains `DELETE` or `RENAME_OLD`; `add` when it contains `RENAME_NEW`,
or `CREATE` together with `CLOSE` (or with one of the above); when none
of those bits are set, `update-metadata` requires `CLOSE` together with
`DATA_EXTEND` or `DATA_OVERWRITE`; everything else - including a
`CLOSE`-only record, a `CREATE`-only record and a data-only record
without `CLOSE` - is ignored. -/
theorem C3_classification_spec (reason : Nat) :
    classify reason =
      if reason &&& uFileDelete ≠ 0 ∨ reason &&& uRenameOld ≠ 0 then some 0
      else if reason &&& uRenameNew ≠ 0 then some 1
      else if reason &&& uClose ≠ 0 then
        if reason &&& uFileCreate ≠ 0 then some 1
        else if reason &&& (uDataExtend ||| uDataOverwrite) ≠ 0 then some 2
        else none
      else none := by
  unfold classify
  split_ifs <;> tauto

/-- Claim C4, counterexample: the claim says every mutation preserves
the file-ref-map invariant.  A state built from one item with reference
1 satisfies it, but `add_file` of a second item with the same reference
1 breaks it: both slots stay live with reference 1 while the map points
only at the newer slot. -/
theorem C4_counterexample :
    ClaimInv (buildIndex [mkItem "a" "c:\\a" 1 5 0]) ∧
    ¬ClaimInv (addFile (mkItem "b" "c:\\b" 1 6 0)
      (buildIndex [mkItem "a" "c:\\a" 1 5 0])) := by
  decide

/-- Claim C4, amended: the mutations preserve the well-formedness
invariant (every live slot's reference maps back to exactly that slot;
every map binding addresses an in-range slot carrying that reference;
tombstoned slots have cleared paths) - and hence the claimed invariant,
with uniqueness holding among live slots - under these provisos:
`build`'s input carries pairwise-distinct references and clears the
path of any cleared-name item; `add_file`'s item reference is not that
of any live slot (re-adds must go through the delete-then-add
sequence) and likewise only an empty-path item may carry an empty
name; `remove_file` preserves it unconditionally; and
`remove_file_by_path` preserves it for nonempty paths. -/
theorem C4_mutations_preserve_wf :
    (∀ input, RefInj input → CleanInput input → WF (buildIndex input)) ∧
    (∀ (s : IndexState) (it : IndexedItem), WF s →
      (∀ i : Fin s.items.length, ItemLive (s.items.get i) →
        (s.items.get i).file_ref ≠ it.file_ref) →
      (it.name = "" → it.path = "") → WF (addFile it s)) ∧
    (∀ (s : IndexState) (r : Nat), WF s → WF (removeFile r s).snd) ∧
    (∀ (s : IndexState) (p : String), WF s → p ≠ "" → WF (removeFileByPath p s).snd) ∧
    (∀ s : IndexState, WF s → ClaimInv s) :=
  ⟨wf_build, wf_addFile, wf_removeFile, wf_removeFileByPath, wf_claimInv⟩

theorem C4_witness :
    WF (buildIndex [mkItem "w" "c:\\w" 7 1 0]) ∧
    WF (addFile (mkItem "x" "c:\\x" 8 1 0) (buildIndex [mkItem "w" "c:\\w" 7 1 0])) ∧
    WF (removeFile 7 (buildIndex [mkItem "w" "c:\\w" 7 1 0])).snd ∧
    WF (removeFileByPath "c:\\w" (buildIndex [mkItem "w" "c:\\w" 7 1 0])).snd ∧
    ClaimInv (buildIndex [mkItem "w" "c:\\w" 7 1 0]) :=
  ⟨C4_mutations_preserve_wf.1 _ (by decide) (by decide),
   C4_mutations_preserve_wf.2.1 _ _ (by decide) (by decide) (by decide),
   C4_mutations_preserve_wf.2.2.1 _ 7 (by decide),
   C4_mutations_preserve_wf.2.2.2.1 _ "c:\\w" (by decide) (by decide),
   C4_mutations_preserve_wf.2.2.2.2 _ (by decide)⟩

/-- Claim C5: a save-then-load round trip preserves the live (non
tombstoned) items exactly, with only the serde-skipped `name_lower`
field recomputed from `name`; tombstoned slots remain tombstoned, so
the multiset (indeed the sequence) of live items is preserved modulo
`name_lower` recomputation. -/
theorem C5_save_load_preserves_live_items (s : IndexState) :
    (loadBlob (saveBlob s)).items.filter liveB = (s.items.filter liveB).map relower := by
  have h1 : (loadBlob (saveBlob s)).items = s.items.map relower := by
    show (s.items.map fun it => { it with name_lower := "" }).map relower
        = s.items.map relower
    rw [List.map_map]
    rfl
  rw [h1]
  exact filter_liveB_map_relower s.items

/-- Claim C6, counterexample: the claim says `size:>1gb` matches only
items with size strictly greater than `1_073_741_824`; the parsed
bound is indeed `1_073_741_824`, but the filter rejects only
`size < size_min`, so an item of exactly `1_073_741_824` bytes passes. -/
theorem C6_counterexample :
    (parseQuery "size:>1gb" 0).snd.size_min = 1073741824 ∧
    matchFilters ⟨"x.bin", "c:\\x.bin", 1073741824, 0, false⟩
      (parseQuery "size:>1gb" 0).snd = true := by
  decide

/-- Claim C6, amended: for the query `size:>1gb`, an item passes the
filter predicate iff its size is at least `1_073_741_824` bytes (the
bound is inclusive, not strict). -/
theorem C6_size_filter_is_inclusive (res : SearchResult) (now : Nat) :
    matchFilters res (parseQuery "size:>1gb" now).snd = true ↔
      1073741824 ≤ res.size := by
  have hf : (parseQuery "size:>1gb" now).snd =
      { ext := [], size_min := 1073741824, size_max := 0, date_after := none,
        path := "", name_pattern := "" } := rfl
  rw [hf]
  unfold matchFilters
  simp

/-- Claim C7, counterexample: the claim says re-parsing `pure_keyword`
yields empty filters for every query.  For `path:"a" path:b` the path
extractor finds the quoted form, strips only the quoted matches and
returns early, leaving the unquoted `path:b` token inside
`pure_keyword`; re-parsing it extracts the path filter `b`. -/
theorem C7_counterexample :
    (parseQuery "path:\"a\" path:b" 0).fst = "path:b" ∧
    (parseQuery (parseQuery "path:\"a\" path:b" 0).fst 0).snd.path = "b" := by
  decide

/-- Claim C7, amended: re-parsing `pure_keyword` yields the default
(empty) filters whenever `pure_keyword` contains no filter-introducing
token (no case-insensitive occurrence of `ext:`, `size:`, `dm:`,
`path:` or `name:`).  Extraction can leave such a token behind - an
unquoted `path:` alongside a quoted one, or a token spliced together by
the removal of an embedded match - and then the leftover token parses
as a filter again. -/
theorem C7_reparse_empty_when_no_token (q : String) (now now2 : Nat)
    (h : NoFilterTok (parseQuery q now).fst) :
    (parseQuery (parseQuery q now).fst now2).snd = emptyFilters :=
  parseQuery_noFilterTok _ now2 h

theorem C7_witness :
    NoFilterTok (parseQuery "hello ext:pdf world" 0).fst ∧
    (parseQuery (parseQuery "hello ext:pdf world" 0).fst 0).snd = emptyFilters :=
  ⟨by decide, C7_reparse_empty_when_no_token _ 0 0 (by decide)⟩

/-- Claim C8, counterexample: the claim says extension extraction gives
the same result everywhere and that `.hidden` yields `hidden`.  The
index side does map `.hidden` to key `hidden`, so
`search_by_extension("hidden")` returns it - but the `ext:` filter
computes the extension with `Path::extension()`, under which `.hidden`
has no extension, so `ext:hidden` rejects the very same file. -/
theorem C8_counterexample :
    ((searchByExtension "hidden" 10
        (buildIndex [mkItem ".hidden" "c:\\.hidden" 1 5 0])).any
      fun it => it.name == ".hidden") = true ∧
    matchFilters ⟨".hidden", "c:\\.hidden", 5, 0, false⟩
      (parseQuery "ext:hidden" 0).snd = false := by
  decide

/-- Claim C8, amended: the three extension-extraction sites disagree.
The index key (`build` / `search_by_extension`) is the lowercased text
after the last dot, with dotless names left unindexed (`noext` has no
key, `foo.` has key `""`, `.hidden` has key `hidden`).  The `ext:`
filter uses `Path::extension()` semantics, under which `noext`, `foo.`
and `.hidden` all have extension `""`.  `get_ext_lower` keeps the dot
(`""`, `"."` and `".hidden"` respectively).  Consequently
`search_by_extension("hidden")` returns a `.hidden` item that the
`ext:hidden` filter rejects. -/
theorem C8_extension_semantics :
    extKeyOf "noext" = none ∧ extKeyOf "foo." = some "" ∧
    extKeyOf ".hidden" = some "hidden" ∧
    pathExtLower "noext" = "" ∧ pathExtLower "foo." = "" ∧
    pathExtLower ".hidden" = "" ∧ pathExtLower "A.TXT" = "txt" ∧
    getExtLower "noext" = "" ∧ getExtLower "foo." = "." ∧
    getExtLower ".hidden" = ".hidden" ∧
    ((searchByExtension "hidden" 10
        (buildIndex [mkItem ".hidden" "c:\\.hidden" 1 5 0])).any
      fun it => it.name == ".hidden") = true ∧
    matchFilters ⟨".hidden", "c:\\.hidden", 5, 0, false⟩
      (parseQuery "ext:hidden" 0).snd = false := by
  decide

/-- Claim C9, counterexample: the claim says that after
`remove_file(r)` returns `true`, no `search_contains` result carries
reference `r` - for every index state.  After `build` of an item with
reference 1 and an unchecked `add_file` of a second item with the same
reference 1, `remove_file 1` returns `true` (tombstoning only the
newer slot), yet the older live slot with reference 1 still surfaces
in `search_contains`. -/
theorem C9_counterexample :
    (removeFile 1 (addFile (mkItem "b" "c:\\b" 1 6 0)
        (buildIndex [mkItem "a" "c:\\a" 1 5 0]))).fst = true ∧
    ((searchContains "a" 10 (removeFile 1 (addFile (mkItem "b" "c:\\b" 1 6 0)
        (buildIndex [mkItem "a" "c:\\a" 1 5 0]))).snd).any
      fun it => it.file_ref == 1) = true := by
  decide

/-- Claim C9, amended: in any index state satisfying the live-slot map
invariant (every live item's reference maps to its own slot - true of
all states produced by the disciplined delete-then-add usage), once
`remove_file r` returns `true`, no `search_contains` result, for any
pattern and any `max_results`, carries reference `r`. -/
theorem C9_removed_ref_absent (s : IndexState) (r : Nat) (q : String) (maxR : Nat)
    (hlm : LiveMapped s) (hrem : (removeFile r s).fst = true) :
    ∀ it ∈ searchContains q maxR (removeFile r s).snd, it.file_ref ≠ r :=
  searchContains_mem_refs s r q maxR hlm hrem

theorem C9_witness :
    LiveMapped (buildIndex [mkItem "a" "c:\\a" 1 5 0, mkItem "b" "c:\\b" 2 5 0]) ∧
    (removeFile 1 (buildIndex [mkItem "a" "c:\\a" 1 5 0, mkItem "b" "c:\\b" 2 5 0])).fst
      = true ∧
    relower (mkItem "b" "c:\\b" 2 5 0) ∈ searchContains "b" 10
      (removeFile 1 (buildIndex [mkItem "a" "c:\\a" 1 5 0,
        mkItem "b" "c:\\b" 2 5 0])).snd ∧
    (relower (mkItem "b" "c:\\b" 2 5 0)).file_ref ≠ 1 :=
  ⟨by decide, by decide, by decide,
   C9_removed_ref_absent
     (buildIndex [mkItem "a" "c:\\a" 1 5 0, mkItem "b" "c:\\b" 2 5 0])
     1 "b" 10 (by decide) (by decide)
     (relower (mkItem "b" "c:\\b" 2 5 0)) (by decide)⟩

/-- Claim C10: `save_to_file` serializes tombstoned slots along with
live ones, and `load_from_file` rebuilds the maps via `build`, which
re-inserts every slot's `file_ref` - tombstones included - into
`file_ref_map`.  Hence in any reachable state, if `remove_file r`
returned `true` before a save-then-load round trip, `remove_file r`
returns `true` again afterwards (instead of `false`). -/
theorem C10_remove_true_after_roundtrip (s : IndexState) (r : Nat) (hs : Reachable s)
    (hrem : (removeFile r s).fst = true) :
    (removeFile r (loadBlob (saveBlob (removeFile r s).snd))).fst = true :=
  roundtrip_remove_again s r hs hrem

theorem C10_witness :
    (removeFile 1 (buildIndex [mkItem "a" "c:\\a" 1 5 0])).fst = true ∧
    (removeFile 1 (loadBlob (saveBlob
      (removeFile 1 (buildIndex [mkItem "a" "c:\\a" 1 5 0])).snd))).fst = true :=
  ⟨by decide,
   C10_remove_true_after_roundtrip _ 1 (Reachable.build _) (by decide)⟩
